import Mathlib

/-!
# RPG-Inventory: placement state machine, shallow embedding

Embedding of the inventory core of the RPG-Inventory repository.
The drag-resolution logic (`handleDragEnd`) and its helpers
(`unequipEverywhere`, `moveToStorageAtIndex`) follow
`src/unnamed/part_000` (the prototype containing all four drop cases);
`addItem` (with stats parsing), `deleteItem` follow
`src/rpg-inventory-local/src/App.tsx`.  The two files agree on every
case they both implement.

React `useState` updaters are flattened into pure functions on one
state record: within a single `handleDragEnd` call the queued updates
are applied in queue order to the snapshot captured by the handler,
which is exactly what React does for one synchronous event handler.
-/

namespace RPGInventory

/-- A stats value as produced by
`stats[k] = isNaN(Number(v)) ? v : Number(v)` in `addItem`
(App.tsx lines 250-254).  `num raw` records that the raw text `raw`
was coerced to a JavaScript number; `str` that it was kept as a
string; `undef` models the JavaScript `undefined` stored when the
pair had no `=` (then `v` is `undefined` and
`isNaN(Number(undefined))` is true, so `undefined` itself is stored). -/
inductive StatValue where
  | num : String → StatValue
  | str : String → StatValue
  | undefVal : StatValue
deriving DecidableEq, Repr

/-- `type Item` from App.tsx: `{ id, name, icon?, description?, stats }`.
`description: newDesc || ""` always yields a string, so it is modelled
as `String`. -/
structure Item where
  id : String
  name : String
  icon : Option String
  description : String
  stats : List (String × StatValue)
deriving DecidableEq, Repr

/-- The five fixed equipment slots, `SLOT_IDS` in the source. -/
inductive SlotId where
  | head | body | mainHand | offHand | legs
deriving DecidableEq, Repr

/-- `SlotsState = Record<string, string | null>` restricted to the five
slot keys the code ever writes. -/
structure Slots where
  head : Option String
  body : Option String
  mainHand : Option String
  offHand : Option String
  legs : Option String
deriving DecidableEq, Repr

def Slots.get (sl : Slots) : SlotId → Option String
  | .head => sl.head
  | .body => sl.body
  | .mainHand => sl.mainHand
  | .offHand => sl.offHand
  | .legs => sl.legs

def Slots.set (sl : Slots) (k : SlotId) (v : Option String) : Slots :=
  match k with
  | .head => { sl with head := v }
  | .body => { sl with body := v }
  | .mainHand => { sl with mainHand := v }
  | .offHand => { sl with offHand := v }
  | .legs => { sl with legs := v }

def allSlotIds : List SlotId := [.head, .body, .mainHand, .offHand, .legs]

/-- `isSlotId` from the source: membership of the raw string in
`SLOT_IDS`, here returning the typed slot. -/
def isSlotId (id : String) : Option SlotId :=
  if id = "head" then some .head
  else if id = "body" then some .body
  else if id = "mainHand" then some .mainHand
  else if id = "offHand" then some .offHand
  else if id = "legs" then some .legs
  else none

/-- The component state: `items`, `storageOrder`, `slots`. -/
structure InvState where
  items : List Item
  storageOrder : List String
  slots : Slots
deriving DecidableEq, Repr

def emptySlots : Slots := ⟨none, none, none, none, none⟩

/-- The empty initial state (all slots null, no items, empty storage). -/
def emptyState : InvState := ⟨[], [], emptySlots⟩

/-- `unequipEverywhere` (part_000 lines 212-218): null out every slot
holding `itemId`.  `deleteItem` runs the identical loop for its slot
cleanup. -/
def unequipEverywhere (itemId : String) (sl : Slots) : Slots :=
  { head := if sl.head = some itemId then none else sl.head
    body := if sl.body = some itemId then none else sl.body
    mainHand := if sl.mainHand = some itemId then none else sl.mainHand
    offHand := if sl.offHand = some itemId then none else sl.offHand
    legs := if sl.legs = some itemId then none else sl.legs }

/-- `moveToStorageAtIndex` (part_000 lines 220-226): filter `itemId`
out, clamp the index to the filtered length, splice `itemId` back in.
`Math.max(0, _)` is vacuous on `Nat`. -/
def moveToStorageAtIndex (itemId : String) (toIndex : Nat)
    (storage : List String) : List String :=
  let without := storage.filter (fun x => x ≠ itemId)
  let clamped := min toIndex without.length
  without.take clamped ++ itemId :: without.drop clamped

/-- `arrayMove` of `@dnd-kit/sortable`: splice the element out at `i`
and splice it back in at `j`.  Both call sites pass `i = indexOf` of a
member, so `i` is always in range; the `none` arm is unreachable
there. -/
def arrayMove (l : List String) (i j : Nat) : List String :=
  match l[i]? with
  | some x => (l.eraseIdx i).insertIdx j x
  | none => l

/-- `handleDragEnd` (part_000 lines 228-290).  The four cases in source
order: reorder within storage, drop on the storage container, drop on
a stored item, drop on an equipment slot; anything else is a no-op.
`!activeId || !overId` is the empty-string guard.  In case 4 the
`replaced && !storageOrder.includes(replaced)` test reads the
snapshot's storage order, and the removal of `activeId` from storage
is guarded by `inStorageActive`, also computed on the snapshot. -/
def handleDragEnd (activeId overId : String) (s : InvState) : InvState :=
  if activeId = "" ∨ overId = "" then s
  else if activeId ∈ s.storageOrder ∧ overId ∈ s.storageOrder then
    let oldIndex := s.storageOrder.indexOf activeId
    let newIndex := s.storageOrder.indexOf overId
    if oldIndex ≠ newIndex then
      { s with storageOrder := arrayMove s.storageOrder oldIndex newIndex }
    else s
  else if overId = "storage" then
    if activeId ∈ s.storageOrder then
      { s with slots := unequipEverywhere activeId s.slots }
    else
      { s with slots := unequipEverywhere activeId s.slots,
               storageOrder := s.storageOrder ++ [activeId] }
  else if overId ∈ s.storageOrder then
    let newIndex := s.storageOrder.indexOf overId
    { s with slots := unequipEverywhere activeId s.slots,
             storageOrder := moveToStorageAtIndex activeId newIndex s.storageOrder }
  else
    match isSlotId overId with
    | some targetSlot =>
      let replaced := s.slots.get targetSlot
      let storage1 :=
        match replaced with
        | some r =>
          if r ≠ "" ∧ r ∉ s.storageOrder then s.storageOrder ++ [r]
          else s.storageOrder
        | none => s.storageOrder
      let newSlots :=
        (unequipEverywhere activeId s.slots).set targetSlot (some activeId)
      let storage2 :=
        if activeId ∈ s.storageOrder then storage1.filter (fun x => x ≠ activeId)
        else storage1
      { s with slots := newSlots, storageOrder := storage2 }
    | none => s

/-- JavaScript `String.prototype.trim`: strip leading and trailing
whitespace.  Implemented by structural recursion on the character
list so that it evaluates inside the kernel. -/
def jsTrim (s : String) : String :=
  ⟨((s.data.dropWhile Char.isWhitespace).reverse.dropWhile
      Char.isWhitespace).reverse⟩

/-- Split a character list at every occurrence of `sep`; the result
always has at least one (possibly empty) group, so `[]` splits to
`[[]]`, matching JavaScript `"".split(sep) = [""]`. -/
def splitChar (sep : Char) : List Char → List (List Char)
  | [] => [[]]
  | c :: cs =>
    match splitChar sep cs with
    | [] => [[]]
    | g :: gs => if c = sep then [] :: g :: gs else (c :: g) :: gs

/-- JavaScript `String.prototype.split` with a one-character separator
(the code only ever splits on `","` and `"="`). -/
def jsSplit (sep : Char) (s : String) : List String :=
  (splitChar sep s.data).map (fun cs => ⟨cs⟩)

/-- JavaScript object assignment `stats[k] = v`: overwrite in place if
the key exists, otherwise append. -/
def statSet (stats : List (String × StatValue)) (k : String) (v : StatValue) :
    List (String × StatValue) :=
  if stats.any (fun kv => kv.1 = k) then
    stats.map (fun kv => if kv.1 = k then (k, v) else kv)
  else stats ++ [(k, v)]

/-- Models the JavaScript test `!isNaN(Number(v))` on the trimmed value
of a stats pair.  `Number("")` is `0`, so the empty string counts as a
number; otherwise an optional sign followed by a decimal numeral (with
an optional fractional part) counts.  Exotic forms (hex, exponents,
`Infinity`) are outside the inputs this development evaluates. -/
def jsNumParses (v : String) : Bool :=
  let isUDecimal : List Char → Bool := fun cs =>
    let intPart := cs.takeWhile (fun c => c.isDigit)
    match cs.drop intPart.length with
    | [] => !intPart.isEmpty
    | '.' :: frac => (!intPart.isEmpty || !frac.isEmpty) && frac.all (fun c => c.isDigit)
    | _ => false
  match (jsTrim v).toList with
  | [] => true
  | c :: rest => if c = '+' || c = '-' then isUDecimal rest else isUDecimal (c :: rest)

/-- One iteration of the `newStats.split(",").forEach(...)` loop of
`addItem` (App.tsx lines 251-254):
`const [k, v] = pair.split("=").map(s => s.trim()); if (k) stats[k] = ...`.
When the pair has no `=`, `v` is `undefined` and
`isNaN(Number(undefined))` holds, so `undefined` is stored. -/
def parsePairInto (isNum : String → Bool)
    (stats : List (String × StatValue)) (pair : String) :
    List (String × StatValue) :=
  let parts := (jsSplit '=' pair).map jsTrim
  let k := parts.headD ""
  if k = "" then stats
  else
    let v : StatValue :=
      match parts[1]? with
      | some w => if isNum w then .num w else .str w
      | none => .undefVal
    statSet stats k v

/-- The whole stats-text parse of `addItem`, parameterised by the
number test so that the structural facts below hold for any model of
`Number`. -/
def parseStats (isNum : String → Bool) (text : String) :
    List (String × StatValue) :=
  (jsSplit ',' text).foldl (parsePairInto isNum) []

/-- Spec-side description of the key a pair contributes: the trimmed
text before the first `=`. -/
def keyOfPair (pair : String) : String :=
  ((jsSplit '=' pair).map jsTrim).headD ""

/-- Spec-side description of the value a pair contributes: `undef`
when the pair has no `=`, otherwise number-or-string of the first
value segment. -/
def valOfPair (isNum : String → Bool) (pair : String) : StatValue :=
  match ((jsSplit '=' pair).map jsTrim)[1]? with
  | some w => if isNum w then .num w else .str w
  | none => .undefVal

/-- `addItem` (App.tsx lines 248-269).  The `if (!newName.trim())
return;` guard aborts before `crypto.randomUUID()` runs: no id is
allocated and nothing changes; `none` models that aborted
(`ValidationError`) outcome.  `freshId` stands for the
`crypto.randomUUID()` result. -/
def addItem (newName newIcon newDesc newStats : String) (freshId : String)
    (s : InvState) : Option InvState :=
  if jsTrim newName = "" then none
  else
    let stats := parseStats jsNumParses newStats
    let newItem : Item :=
      ⟨freshId, jsTrim newName,
        if newIcon = "" then none else some newIcon, newDesc, stats⟩
    some { s with items := s.items ++ [newItem],
                  storageOrder := s.storageOrder ++ [freshId] }

/-- `deleteItem` (App.tsx lines 271-279): filter the item out of the
catalog and the storage order, null out every slot holding it.  The
slot loop is literally `unequipEverywhere`. -/
def deleteItem (id : String) (s : InvState) : InvState :=
  { items := s.items.filter (fun i => i.id ≠ id),
    storageOrder := s.storageOrder.filter (fun x => x ≠ id),
    slots := unequipEverywhere id s.slots }

/-- The guarantees of `crypto.randomUUID()` for a freshly allocated id:
a version-4 UUID string is nonempty, is not the reserved container id
`"storage"`, is not one of the five slot names, and (with the
uniqueness the spec assumes of it) collides with no id already in the
state. -/
def isFreshId (freshId : String) (s : InvState) : Prop :=
  freshId ≠ "" ∧ freshId ≠ "storage" ∧ isSlotId freshId = none ∧
  (∀ it ∈ s.items, it.id ≠ freshId) ∧ freshId ∉ s.storageOrder ∧
  (∀ k ∈ allSlotIds, s.slots.get k ≠ some freshId)

/-- One mutation of the store: a successful create, a delete, or a
drag resolution. -/
inductive Step : InvState → InvState → Prop where
  | create : ∀ (s : InvState) (name icon desc statsText freshId : String)
      (s2 : InvState), isFreshId freshId s →
      addItem name icon desc statsText freshId s = some s2 → Step s s2
  | remove : ∀ (s : InvState) (id : String), Step s (deleteItem id s)
  | move : ∀ (s : InvState) (a t : String), Step s (handleDragEnd a t s)

/-- States reachable from the empty initial state. -/
inductive Reachable : InvState → Prop where
  | init : Reachable emptyState
  | step : ∀ {s s2 : InvState}, Reachable s → Step s s2 → Reachable s2

/-! ## Basic lemmas about slots -/

theorem unequip_get (itemId : String) (sl : Slots) (k : SlotId) :
    (unequipEverywhere itemId sl).get k =
      if sl.get k = some itemId then none else sl.get k := by
  cases k <;> rfl

theorem set_get_same (sl : Slots) (k : SlotId) (v : Option String) :
    (sl.set k v).get k = v := by
  cases k <;> rfl

theorem set_get_other (sl : Slots) (k k2 : SlotId) (v : Option String)
    (h : k2 ≠ k) : (sl.set k v).get k2 = sl.get k2 := by
  cases k <;> cases k2 <;> first | rfl | exact absurd rfl h

theorem slots_ext (sl sl2 : Slots) (h : ∀ k, sl.get k = sl2.get k) :
    sl = sl2 := by
  cases sl; cases sl2
  have h1 := h .head
  have h2 := h .body
  have h3 := h .mainHand
  have h4 := h .offHand
  have h5 := h .legs
  simp only [Slots.get] at h1 h2 h3 h4 h5
  simp [h1, h2, h3, h4, h5]

theorem unequip_of_not_held (itemId : String) (sl : Slots)
    (h : ∀ k, sl.get k ≠ some itemId) : unequipEverywhere itemId sl = sl := by
  refine slots_ext _ _ (fun k => ?_)
  rw [unequip_get]
  exact if_neg (h k)

/-! ## List helpers for the splice-based operations -/

theorem insertIdx_eq_take_cons_drop (a : String) :
    ∀ (n : Nat) (l : List String), n ≤ l.length →
      l.insertIdx n a = l.take n ++ a :: l.drop n := by
  intro n
  induction n with
  | zero => intro l _; simp [List.insertIdx_zero]
  | succ n ih =>
    intro l hl
    cases l with
    | nil => simp at hl
    | cons hd tl =>
      simp only [List.insertIdx_succ_cons, List.take, List.drop, List.cons_append]
      rw [ih tl (by simpa using hl)]

theorem perm_insertIdx_cons (a : String) (n : Nat) (l : List String)
    (h : n ≤ l.length) : List.Perm (l.insertIdx n a) (a :: l) := by
  rw [insertIdx_eq_take_cons_drop a n l h]
  have h1 : List.Perm (l.take n ++ a :: l.drop n) (a :: (l.take n ++ l.drop n)) :=
    List.perm_middle
  rwa [List.take_append_drop] at h1

theorem perm_cons_eraseIdx (l : List String) (i : Nat) (x : String)
    (h : l[i]? = some x) : List.Perm l (x :: l.eraseIdx i) := by
  have hi : i < l.length := by
    by_contra hcon
    rw [List.getElem?_eq_none (Nat.le_of_not_lt hcon)] at h
    exact Option.noConfusion h
  have hx : l[i] = x := by
    have hh := List.getElem?_eq_getElem hi
    rw [hh] at h
    exact Option.some.inj h
  have h1 : List.Perm (l.take i ++ l[i] :: l.drop (i + 1))
      (l[i] :: (l.take i ++ l.drop (i + 1))) := List.perm_middle
  rw [← List.drop_eq_getElem_cons hi, List.take_append_drop,
    ← List.eraseIdx_eq_take_drop_succ, hx] at h1
  exact h1

theorem perm_arrayMove (l : List String) (i j : Nat)
    (hi : i < l.length) (hj : j ≤ l.length - 1) :
    List.Perm (arrayMove l i j) l := by
  have hget : l[i]? = some l[i] := List.getElem?_eq_getElem hi
  unfold arrayMove
  rw [hget]
  have hlen : (l.eraseIdx i).length = l.length - 1 := by
    rw [List.length_eraseIdx]
    simp [hi]
  have h1 : List.Perm ((l.eraseIdx i).insertIdx j l[i]) (l[i] :: l.eraseIdx i) :=
    perm_insertIdx_cons _ _ _ (by rw [hlen]; exact hj)
  exact h1.trans (perm_cons_eraseIdx l i _ hget).symm

theorem nodup_arrayMove (l : List String) (i j : Nat) (h : l.Nodup) :
    (arrayMove l i j).Nodup := by
  unfold arrayMove
  cases hget : l[i]? with
  | none => exact h
  | some x =>
    show ((l.eraseIdx i).insertIdx j x).Nodup
    by_cases hj : j ≤ (l.eraseIdx i).length
    · have hperm := perm_insertIdx_cons x j (l.eraseIdx i) hj
      have h2 : (x :: l.eraseIdx i).Nodup :=
        ((perm_cons_eraseIdx l i x hget).nodup_iff).mp h
      exact hperm.nodup_iff.mpr h2
    · rw [List.insertIdx_of_length_lt _ _ _ (Nat.lt_of_not_le hj)]
      exact (List.eraseIdx_sublist l i).nodup h

theorem not_mem_filter_self (a : String) (l : List String) :
    a ∉ l.filter (fun x => x ≠ a) := by
  intro hmem
  have := List.of_mem_filter hmem
  simp at this

theorem nodup_moveToStorage (a : String) (n : Nat) (l : List String)
    (h : l.Nodup) : (moveToStorageAtIndex a n l).Nodup := by
  unfold moveToStorageAtIndex
  have hwo : (l.filter (fun x => x ≠ a)).Nodup := h.filter _
  rw [List.nodup_middle, List.take_append_drop]
  exact List.nodup_cons.mpr ⟨not_mem_filter_self a l, hwo⟩

theorem filter_ne_of_not_mem (a : String) (l : List String)
    (h : a ∉ l) : l.filter (fun x => x ≠ a) = l := by
  rw [List.filter_eq_self]
  intro x hx
  simp only [ne_eq, decide_eq_true_eq]
  exact fun hxa => h (hxa ▸ hx)

/-! ## The no-duplication invariant and its preservation -/

/-- No item id is held by two distinct equipment slots. -/
def NoTwoSlots (sl : Slots) : Prop :=
  ∀ k1 k2 : SlotId, k1 ≠ k2 → ∀ i : String,
    sl.get k1 = some i → sl.get k2 ≠ some i

/-- The duplication-freedom invariant of §8 of the spec. -/
def Inv (s : InvState) : Prop := s.storageOrder.Nodup ∧ NoTwoSlots s.slots

theorem noTwoSlots_unequip (i : String) (sl : Slots) (h : NoTwoSlots sl) :
    NoTwoSlots (unequipEverywhere i sl) := by
  intro k1 k2 hne j h1 h2
  rw [unequip_get] at h1 h2
  by_cases c1 : sl.get k1 = some i
  · rw [if_pos c1] at h1; exact Option.noConfusion h1
  · rw [if_neg c1] at h1
    by_cases c2 : sl.get k2 = some i
    · rw [if_pos c2] at h2; exact Option.noConfusion h2
    · rw [if_neg c2] at h2
      exact h k1 k2 hne j h1 h2

theorem unequip_get_ne (i : String) (sl : Slots) (k : SlotId) :
    (unequipEverywhere i sl).get k ≠ some i := by
  rw [unequip_get]
  by_cases c : sl.get k = some i
  · rw [if_pos c]; exact fun hc => Option.noConfusion hc
  · rw [if_neg c]; exact c

theorem noTwoSlots_equip (a : String) (t : SlotId) (sl : Slots)
    (h : NoTwoSlots sl) :
    NoTwoSlots ((unequipEverywhere a sl).set t (some a)) := by
  intro k1 k2 hne j h1 h2
  by_cases c1 : k1 = t
  · subst c1
    rw [set_get_same] at h1
    rw [set_get_other _ _ _ _ (fun hc => hne hc.symm)] at h2
    have hj : j = a := (Option.some.inj h1).symm
    subst hj
    exact unequip_get_ne j sl k2 h2
  · rw [set_get_other _ _ _ _ c1] at h1
    by_cases c2 : k2 = t
    · subst c2
      rw [set_get_same] at h2
      have hj : j = a := (Option.some.inj h2).symm
      subst hj
      exact unequip_get_ne j sl k1 h1
    · rw [set_get_other _ _ _ _ c2] at h2
      exact noTwoSlots_unequip a sl h k1 k2 hne j h1 h2

theorem nodup_append_singleton (a : String) (l : List String)
    (hl : l.Nodup) (ha : a ∉ l) : (l ++ [a]).Nodup := by
  rw [List.nodup_middle]
  simpa using List.nodup_cons.mpr ⟨ha, hl⟩

theorem inv_handleDragEnd (a t : String) (s : InvState) (h : Inv s) :
    Inv (handleDragEnd a t s) := by
  obtain ⟨hs, hsl⟩ := h
  unfold handleDragEnd
  dsimp only
  split
  · exact ⟨hs, hsl⟩
  split
  case isTrue hmem =>
    split
    · refine ⟨nodup_arrayMove _ _ _ hs, hsl⟩
    · exact ⟨hs, hsl⟩
  split
  · split
    · exact ⟨hs, noTwoSlots_unequip a s.slots hsl⟩
    case isFalse hnotin =>
      exact ⟨nodup_append_singleton a s.storageOrder hs hnotin,
        noTwoSlots_unequip a s.slots hsl⟩
  split
  · exact ⟨nodup_moveToStorage a _ s.storageOrder hs,
      noTwoSlots_unequip a s.slots hsl⟩
  split
  case h_1 targetSlot heq =>
    refine ⟨?_, noTwoSlots_equip a targetSlot s.slots hsl⟩
    have h1 : (match s.slots.get targetSlot with
        | some r =>
          if r ≠ "" ∧ r ∉ s.storageOrder then s.storageOrder ++ [r]
          else s.storageOrder
        | none => s.storageOrder).Nodup := by
      split
      case h_1 r hr =>
        split
        case isTrue hcond => exact nodup_append_singleton r _ hs hcond.2
        case isFalse => exact hs
      case h_2 => exact hs
    split
    · exact List.Nodup.filter _ h1
    · exact h1
  case h_2 => exact ⟨hs, hsl⟩

theorem inv_deleteItem (id : String) (s : InvState) (h : Inv s) :
    Inv (deleteItem id s) := by
  obtain ⟨hs, hsl⟩ := h
  exact ⟨List.Nodup.filter _ hs, noTwoSlots_unequip id s.slots hsl⟩

theorem inv_addItem (name icon desc statsText freshId : String)
    (s s2 : InvState) (hfresh : isFreshId freshId s)
    (hadd : addItem name icon desc statsText freshId s = some s2)
    (h : Inv s) : Inv s2 := by
  obtain ⟨hs, hsl⟩ := h
  unfold addItem at hadd
  split at hadd
  · exact Option.noConfusion hadd
  · have hs2 : s2 = { s with
        items := s.items ++ [⟨freshId, jsTrim name,
          if icon = "" then none else some icon, desc,
          parseStats jsNumParses statsText⟩],
        storageOrder := s.storageOrder ++ [freshId] } :=
      (Option.some.inj hadd).symm
    subst hs2
    exact ⟨nodup_append_singleton freshId s.storageOrder hs hfresh.2.2.2.2.1,
      hsl⟩

/-! ## Reachable-state invariants -/

theorem inv_of_reachable (s : InvState) (h : Reachable s) : Inv s := by
  induction h with
  | init =>
    refine ⟨List.nodup_nil, fun k1 k2 hne i h1 => ?_⟩
    cases k1 <;> exact Option.noConfusion h1
  | step hr hstep ih =>
    cases hstep with
    | create name icon desc statsText freshId s2v hfresh hadd =>
      exact inv_addItem name icon desc statsText freshId _ _ hfresh hadd ih
    | remove id => exact inv_deleteItem id _ ih
    | move a t => exact inv_handleDragEnd a t _ ih

/-- C6: in every state reachable from the empty initial state by
create, remove and resolveMove steps, the storage order contains no
item id twice, and no item id is held by two distinct equipment
slots. -/
theorem no_duplication_invariant (s : InvState) (h : Reachable s) :
    s.storageOrder.Nodup ∧
    ∀ k1 k2 : SlotId, k1 ≠ k2 → ∀ i : String,
      s.slots.get k1 = some i → s.slots.get k2 ≠ some i :=
  ⟨(inv_of_reachable s h).1, (inv_of_reachable s h).2⟩

theorem no_duplication_invariant_witness :
    Reachable emptyState ∧ emptyState.storageOrder.Nodup :=
  ⟨Reachable.init, (no_duplication_invariant emptyState Reachable.init).1⟩

/-! ## C1: the partition invariant fails on a reachable state -/

/-- The state after creating one item (id `x`) from the empty state. -/
def c1State : InvState := ⟨[⟨"x", "Sword", none, "", []⟩], ["x"], emptySlots⟩

/-- The state after then resolving two `(x, mainHand)` moves: the first
equips `x`; the second drops `x` onto the slot it already occupies. -/
def c1Bug : InvState :=
  handleDragEnd "x" "mainHand" (handleDragEnd "x" "mainHand" c1State)

/-- C1: a reachable state violating the partition invariant.  Dropping
an equipped item onto the very slot holding it takes the `replaced &&
!storageOrder.includes(replaced)` branch with `replaced === activeId`,
appending the item to storage, while `inStorageActive` (computed
before the append) is false, so the item is not removed: it ends both
equipped in `mainHand` and a member of `storageOrder`. -/
theorem partition_invariant_violation :
    Reachable c1Bug ∧
    c1Bug.slots.get SlotId.mainHand = some "x" ∧
    "x" ∈ c1Bug.storageOrder ∧
    "x" ∈ c1Bug.items.map Item.id := by
  refine ⟨?_, by decide, by decide, by decide⟩
  have h1 : Reachable c1State :=
    Reachable.step Reachable.init
      (Step.create emptyState "Sword" "" "" "" "x" c1State
        (by unfold isFreshId; decide) (by decide))
  exact Reachable.step (Reachable.step h1 (Step.move c1State "x" "mainHand"))
    (Step.move (handleDragEnd "x" "mainHand" c1State) "x" "mainHand")

/-! ## C10: resolveMove never touches the catalog -/

/-- C10: the item catalog (the set of items with all their fields) is
unchanged by every resolveMove, whatever the ids and the state. -/
theorem resolveMove_preserves_catalog (a t : String) (s : InvState) :
    (handleDragEnd a t s).items = s.items := by
  unfold handleDragEnd
  dsimp only
  split
  · rfl
  split
  · split <;> rfl
  split
  · split <;> rfl
  split
  · rfl
  split
  · rfl
  · rfl

/-! ## C2: reorder within storage -/

/-- Storage holding `a`, `b`, `c` in that order. -/
def c2Sample : InvState := ⟨[], ["a", "b", "c"], emptySlots⟩

/-- C2 counterexample: the claim predicts that `resolveMove(a, c)` on
storage `[a, b, c]` yields `[b, a, c]` (insertion at the target's
post-removal index); the code's `arrayMove` inserts at the target's
index in the original list, yielding `[b, c, a]`. -/
theorem reorder_post_removal_counterexample :
    (handleDragEnd "a" "c" c2Sample).storageOrder = ["b", "c", "a"] ∧
    (handleDragEnd "a" "c" c2Sample).storageOrder ≠ ["b", "a", "c"] := by
  decide

/-- C2 (amended): when both ids are storage members the transition
removes `activeId` and reinserts it at `targetId`'s index taken in the
original list (so moving forward lands immediately after the target,
moving backward immediately before it); equal ids (equivalently equal
indices) are a no-op, the result is always a permutation of the old
storage order, and the slot assignment and catalog are untouched. -/
theorem reorder_within_storage_spec (a t : String) (s : InvState)
    (ha : a ∈ s.storageOrder) (ht : t ∈ s.storageOrder)
    (ha0 : a ≠ "") (ht0 : t ≠ "") :
    (handleDragEnd a t s).slots = s.slots ∧
    (handleDragEnd a t s).items = s.items ∧
    List.Perm (handleDragEnd a t s).storageOrder s.storageOrder ∧
    (a = t → handleDragEnd a t s = s) ∧
    (a ≠ t → (handleDragEnd a t s).storageOrder =
      (s.storageOrder.eraseIdx (s.storageOrder.indexOf a)).insertIdx
        (s.storageOrder.indexOf t) a) := by
  have hguard : ¬(a = "" ∨ t = "") := by
    intro hc
    cases hc with
    | inl hh => exact ha0 hh
    | inr hh => exact ht0 hh
  have hidx : s.storageOrder.indexOf a = s.storageOrder.indexOf t ↔ a = t :=
    List.indexOf_inj ha ht
  unfold handleDragEnd
  dsimp only
  rw [if_neg hguard, if_pos ⟨ha, ht⟩]
  by_cases heq : a = t
  · rw [if_neg (by simp [hidx, heq])]
    exact ⟨rfl, rfl, List.Perm.refl _, fun _ => rfl, fun hne => absurd heq hne⟩
  · have hne : s.storageOrder.indexOf a ≠ s.storageOrder.indexOf t :=
      fun hc => heq (hidx.mp hc)
    rw [if_pos hne]
    refine ⟨rfl, rfl, ?_, fun hc => absurd hc heq, fun _ => ?_⟩
    · exact perm_arrayMove s.storageOrder _ _ (List.indexOf_lt_length.mpr ha)
        (Nat.le_pred_of_lt (List.indexOf_lt_length.mpr ht))
    · show arrayMove s.storageOrder _ _ = _
      unfold arrayMove
      rw [List.getElem?_indexOf ha]

theorem reorder_within_storage_spec_witness :
    ("a" ∈ c2Sample.storageOrder ∧ "c" ∈ c2Sample.storageOrder) ∧
    (handleDragEnd "a" "c" c2Sample).slots = c2Sample.slots :=
  ⟨by decide, (reorder_within_storage_spec "a" "c" c2Sample (by decide)
    (by decide) (by decide) (by decide)).1⟩

/-! ## C4: drop onto the storage container -/

/-- An equipped item `a` and a stored item `y`. -/
def c4Sample : InvState := ⟨[], ["y"], { emptySlots with mainHand := some "a" }⟩

/-- C4: dropping onto the storage container clears `activeId` from every
slot; if it was not a storage member it is appended to the tail, and
if it was one the storage order is left completely unchanged.  (The
hypothesis that no item carries the reserved id `"storage"` rules out
a collision with the container id, which `crypto.randomUUID` ids can
never produce.) -/
theorem drop_on_storage_container_spec (a : String) (s : InvState)
    (ha0 : a ≠ "") (hres : "storage" ∉ s.storageOrder) :
    (∀ k, (handleDragEnd a "storage" s).slots.get k =
      if s.slots.get k = some a then none else s.slots.get k) ∧
    (a ∈ s.storageOrder →
      (handleDragEnd a "storage" s).storageOrder = s.storageOrder) ∧
    (a ∉ s.storageOrder →
      (handleDragEnd a "storage" s).storageOrder = s.storageOrder ++ [a]) ∧
    (handleDragEnd a "storage" s).items = s.items := by
  have hguard : ¬(a = "" ∨ ("storage" : String) = "") := by
    intro hc
    cases hc with
    | inl hh => exact ha0 hh
    | inr hh => exact absurd hh (by decide)
  have hc1 : ¬(a ∈ s.storageOrder ∧ ("storage" : String) ∈ s.storageOrder) :=
    fun hc => hres hc.2
  unfold handleDragEnd
  dsimp only
  rw [if_neg hguard, if_neg hc1, if_pos rfl]
  by_cases hmem : a ∈ s.storageOrder
  · rw [if_pos hmem]
    exact ⟨fun k => unequip_get a s.slots k, fun _ => rfl,
      fun hn => absurd hmem hn, rfl⟩
  · rw [if_neg hmem]
    exact ⟨fun k => unequip_get a s.slots k, fun hmm => absurd hmm hmem,
      fun _ => rfl, rfl⟩

theorem drop_on_storage_container_spec_witness :
    ("a" ∉ c4Sample.storageOrder) ∧
    (handleDragEnd "a" "storage" c4Sample).storageOrder =
      c4Sample.storageOrder ++ ["a"] :=
  ⟨by decide,
    (drop_on_storage_container_spec "a" c4Sample (by decide)
      (by decide)).2.2.1 (by decide)⟩

/-! ## C5: drop onto a specific stored item while not stored -/

/-- C5: when `targetId` is a storage member and `activeId` is not,
the move clears `activeId` from every slot and inserts it into the
storage order at `targetId`'s index, immediately before `targetId`. -/
theorem drop_on_stored_item_spec (a t : String) (s : InvState)
    (ha0 : a ≠ "") (ht0 : t ≠ "") (hts : t ≠ "storage")
    (ht : t ∈ s.storageOrder) (hans : a ∉ s.storageOrder) :
    (∀ k, (handleDragEnd a t s).slots.get k =
      if s.slots.get k = some a then none else s.slots.get k) ∧
    (handleDragEnd a t s).storageOrder =
      s.storageOrder.take (s.storageOrder.indexOf t) ++
        a :: s.storageOrder.drop (s.storageOrder.indexOf t) ∧
    ((handleDragEnd a t s).storageOrder)[s.storageOrder.indexOf t]? = some a ∧
    ((handleDragEnd a t s).storageOrder)[s.storageOrder.indexOf t + 1]? =
      some t ∧
    (handleDragEnd a t s).items = s.items := by
  have hguard : ¬(a = "" ∨ t = "") := by
    intro hc
    cases hc with
    | inl hh => exact ha0 hh
    | inr hh => exact ht0 hh
  have hlt : s.storageOrder.indexOf t < s.storageOrder.length :=
    List.indexOf_lt_length.mpr ht
  unfold handleDragEnd
  dsimp only
  rw [if_neg hguard, if_neg (fun hc => hans hc.1), if_neg hts, if_pos ht]
  have hmove : moveToStorageAtIndex a (s.storageOrder.indexOf t)
      s.storageOrder =
      s.storageOrder.take (s.storageOrder.indexOf t) ++
        a :: s.storageOrder.drop (s.storageOrder.indexOf t) := by
    unfold moveToStorageAtIndex
    dsimp only
    rw [filter_ne_of_not_mem a s.storageOrder hans,
      Nat.min_eq_left (Nat.le_of_lt hlt)]
  have htakelen : (s.storageOrder.take (s.storageOrder.indexOf t)).length =
      s.storageOrder.indexOf t := by
    rw [List.length_take]
    omega
  refine ⟨fun k => unequip_get a s.slots k, hmove, ?_, ?_, rfl⟩
  · show (moveToStorageAtIndex a (s.storageOrder.indexOf t)
      s.storageOrder)[s.storageOrder.indexOf t]? = some a
    rw [hmove, List.getElem?_append_right (le_of_eq htakelen), htakelen]
    simp
  · show (moveToStorageAtIndex a (s.storageOrder.indexOf t)
      s.storageOrder)[s.storageOrder.indexOf t + 1]? = some t
    rw [hmove, List.getElem?_append_right (by omega), htakelen]
    have h1 : s.storageOrder.indexOf t + 1 - s.storageOrder.indexOf t = 1 := by
      omega
    rw [h1]
    rw [List.getElem?_cons_succ, List.getElem?_drop, Nat.add_zero]
    exact List.getElem?_indexOf ht

/-- Slot `mainHand` holds `a`; storage holds `t1`, `t2`. -/
def c5Sample : InvState :=
  ⟨[], ["t1", "t2"], { emptySlots with mainHand := some "a" }⟩

theorem drop_on_stored_item_spec_witness :
    ("t2" ∈ c5Sample.storageOrder ∧ "a" ∉ c5Sample.storageOrder) ∧
    (handleDragEnd "a" "t2" c5Sample).storageOrder = ["t1", "a", "t2"] :=
  ⟨by decide,
    (drop_on_stored_item_spec "a" "t2" c5Sample (by decide) (by decide)
      (by decide) (by decide) (by decide)).2.1⟩

/-! ## C3: drop onto an equipment slot -/

theorem isSlotId_ne (t : String) (k : SlotId) (h : isSlotId t = some k) :
    t ≠ "" ∧ t ≠ "storage" := by
  unfold isSlotId at h
  split_ifs at h with h1 h2 h3 h4 h5
  · subst h1; exact ⟨by decide, by decide⟩
  · subst h2; exact ⟨by decide, by decide⟩
  · subst h3; exact ⟨by decide, by decide⟩
  · subst h4; exact ⟨by decide, by decide⟩
  · subst h5; exact ⟨by decide, by decide⟩

/-- An item `x` equipped in `mainHand`, storage empty. -/
def c3Sample : InvState :=
  ⟨[⟨"x", "Sword", none, "", []⟩], [], { emptySlots with mainHand := some "x" }⟩

/-- C3 counterexample: dropping `x` onto the slot that already holds it
leaves the slot holding `x` *and* puts `x` into the storage order, so
the claim's conclusion that the equipped item is absent from storage
fails when the displaced occupant is the active item itself. -/
theorem equip_self_drop_counterexample :
    (handleDragEnd "x" "mainHand" c3Sample).slots.get SlotId.mainHand =
      some "x" ∧
    "x" ∈ (handleDragEnd "x" "mainHand" c3Sample).storageOrder := by
  decide

/-- C3 (amended): equipping into slot `k` sets the slot to `activeId`,
clears `activeId` from every other slot, and removes `activeId` from
storage if it was a member; a displaced occupant distinct from
`activeId` that was not already stored is appended to the storage
tail, with `activeId` then absent from storage; but when the occupant
is `activeId` itself (a drop onto its own slot) and `activeId` was not
stored, `activeId` is appended to the storage tail while the slot
keeps holding it. -/
theorem equip_case_spec (a t : String) (k : SlotId) (s : InvState)
    (hk : isSlotId t = some k) (ha0 : a ≠ "") (hts : t ∉ s.storageOrder) :
    (handleDragEnd a t s).slots.get k = some a ∧
    (∀ k2, k2 ≠ k → (handleDragEnd a t s).slots.get k2 =
      if s.slots.get k2 = some a then none else s.slots.get k2) ∧
    (a ∈ s.storageOrder → a ∉ (handleDragEnd a t s).storageOrder) ∧
    (∀ y, s.slots.get k = some y → y ≠ "" → y ∉ s.storageOrder → y ≠ a →
      (handleDragEnd a t s).storageOrder.getLast? = some y ∧
      a ∉ (handleDragEnd a t s).storageOrder) ∧
    (s.slots.get k = some a → a ∉ s.storageOrder →
      (handleDragEnd a t s).storageOrder.getLast? = some a) ∧
    (handleDragEnd a t s).items = s.items := by
  obtain ⟨ht0, htst⟩ := isSlotId_ne t k hk
  have hguard : ¬(a = "" ∨ t = "") := by
    intro hc
    cases hc with
    | inl hh => exact ha0 hh
    | inr hh => exact ht0 hh
  unfold handleDragEnd
  dsimp only
  rw [if_neg hguard, if_neg (fun hc => hts hc.2), if_neg htst, if_neg hts,
    hk]
  dsimp only
  refine ⟨set_get_same _ _ _, ?_, ?_, ?_, ?_, rfl⟩
  · intro k2 hk2
    rw [set_get_other _ _ _ _ hk2, unequip_get]
  · intro hmem
    rw [if_pos hmem]
    exact not_mem_filter_self a _
  · intro y hy hy0 hyns hya
    rw [hy]
    dsimp only
    rw [if_pos (show y ≠ "" ∧ y ∉ s.storageOrder from ⟨hy0, hyns⟩)]
    by_cases hmem : a ∈ s.storageOrder
    · rw [if_pos hmem]
      constructor
      · rw [List.filter_append]
        have hfy : [y].filter (fun x => x ≠ a) = [y] := by
          simp [hya]
        rw [hfy]
        exact List.getLast?_concat _
      · exact not_mem_filter_self a _
    · rw [if_neg hmem]
      constructor
      · exact List.getLast?_concat _
      · intro hc
        rcases List.mem_append.mp hc with hc1 | hc2
        · exact hmem hc1
        · rw [List.mem_singleton] at hc2
          exact hya hc2.symm
  · intro hy hans
    rw [hy]
    dsimp only
    rw [if_pos (show a ≠ "" ∧ a ∉ s.storageOrder from ⟨ha0, hans⟩),
      if_neg hans]
    exact List.getLast?_concat _

/-- Slot `mainHand` holds `y`; item `a` is stored. -/
def c3Witness : InvState := ⟨[], ["a"], { emptySlots with mainHand := some "y" }⟩

theorem equip_case_spec_witness :
    (isSlotId "mainHand" = some SlotId.mainHand ∧
      c3Witness.slots.get SlotId.mainHand = some "y") ∧
    (handleDragEnd "a" "mainHand" c3Witness).slots.get SlotId.mainHand =
      some "a" ∧
    (handleDragEnd "a" "mainHand" c3Witness).storageOrder.getLast? =
      some "y" ∧
    "a" ∉ (handleDragEnd "a" "mainHand" c3Witness).storageOrder :=
  ⟨⟨by decide, by decide⟩,
    (equip_case_spec "a" "mainHand" SlotId.mainHand c3Witness (by decide)
      (by decide) (by decide)).1,
    ((equip_case_spec "a" "mainHand" SlotId.mainHand c3Witness (by decide)
      (by decide) (by decide)).2.2.2.1 "y" (by decide) (by decide)
      (by decide) (by decide)).1,
    ((equip_case_spec "a" "mainHand" SlotId.mainHand c3Witness (by decide)
      (by decide) (by decide)).2.2.2.1 "y" (by decide) (by decide)
      (by decide) (by decide)).2⟩

/-! ## C7: deletion purges everywhere -/

theorem find?_filter_ne (id j : String) (hj : j ≠ id) (l : List Item) :
    (l.filter (fun i => i.id ≠ id)).find? (fun i => i.id = j) =
      l.find? (fun i => i.id = j) := by
  induction l with
  | nil => rfl
  | cons hd tl ih =>
    rw [List.filter_cons]
    by_cases hhd : hd.id = id
    · have h2 : ¬ hd.id = j := by
        rw [hhd]
        intro hc
        exact hj hc.symm
      rw [if_neg (by simp [hhd]), List.find?_cons_of_neg _ (by simp [h2])]
      exact ih
    · rw [if_pos (by simp [hhd])]
      by_cases hdj : hd.id = j
      · rw [List.find?_cons_of_pos _ (by simp [hdj]),
          List.find?_cons_of_pos _ (by simp [hdj])]
      · rw [List.find?_cons_of_neg _ (by simp [hdj]),
          List.find?_cons_of_neg _ (by simp [hdj])]
        exact ih

/-- The data-model invariant of §3: every id referenced by a slot or by
the storage order exists in the catalog. -/
def refsExist (s : InvState) : Prop :=
  (∀ j ∈ s.storageOrder, ∃ it ∈ s.items, it.id = j) ∧
  (∀ k : SlotId, ∀ j : String, s.slots.get k = some j →
    ∃ it ∈ s.items, it.id = j)

/-- C7: after `deleteItem id`, the id is gone from the catalog, the
storage order and every slot; every other item's catalog entry, slot
entry and relative storage position are untouched; and deleting an id
that exists nowhere (in a state whose references all resolve) is a
no-op rather than an error. -/
theorem deleteItem_spec (id : String) (s : InvState) :
    (∀ it ∈ (deleteItem id s).items, it.id ≠ id) ∧
    id ∉ (deleteItem id s).storageOrder ∧
    (∀ k, (deleteItem id s).slots.get k ≠ some id) ∧
    (∀ j, j ≠ id → (deleteItem id s).items.find? (fun it => it.id = j) =
      s.items.find? (fun it => it.id = j)) ∧
    (∀ k, s.slots.get k ≠ some id →
      (deleteItem id s).slots.get k = s.slots.get k) ∧
    (deleteItem id s).storageOrder.Sublist s.storageOrder ∧
    (∀ j, j ≠ id →
      (j ∈ (deleteItem id s).storageOrder ↔ j ∈ s.storageOrder)) ∧
    (refsExist s → (∀ it ∈ s.items, it.id ≠ id) → deleteItem id s = s) := by
  refine ⟨?_, ?_, ?_, ?_, ?_, ?_, ?_, ?_⟩
  · intro it hmem
    have h1 := List.of_mem_filter hmem
    simpa using h1
  · exact not_mem_filter_self id s.storageOrder
  · intro k
    exact unequip_get_ne id s.slots k
  · intro j hj
    exact find?_filter_ne id j hj s.items
  · intro k hk
    show (unequipEverywhere id s.slots).get k = s.slots.get k
    rw [unequip_get, if_neg hk]
  · exact List.filter_sublist s.storageOrder
  · intro j hj
    constructor
    · exact fun hmem => List.mem_of_mem_filter hmem
    · intro hmem
      exact List.mem_filter.mpr ⟨hmem, by simpa using hj⟩
  · intro href hnone
    have h1 : s.items.filter (fun i => i.id ≠ id) = s.items := by
      rw [List.filter_eq_self]
      intro it hit
      simpa using hnone it hit
    have hid : id ∉ s.storageOrder := by
      intro hc
      obtain ⟨it, hit, hitid⟩ := href.1 id hc
      exact hnone it hit hitid
    have h2 : s.storageOrder.filter (fun x => x ≠ id) = s.storageOrder :=
      filter_ne_of_not_mem id s.storageOrder hid
    have h3 : unequipEverywhere id s.slots = s.slots := by
      refine unequip_of_not_held id s.slots (fun k hc => ?_)
      obtain ⟨it, hit, hitid⟩ := href.2 k id hc
      exact hnone it hit hitid
    show ({ items := s.items.filter (fun i => i.id ≠ id),
            storageOrder := s.storageOrder.filter (fun x => x ≠ id),
            slots := unequipEverywhere id s.slots } : InvState) = s
    rw [h1, h2, h3]

/-- Item `d` stored, item `e` equipped on `legs`. -/
def c7Sample : InvState :=
  ⟨[⟨"d", "Dagger", none, "", []⟩, ⟨"e", "Helm", none, "", []⟩],
    ["d"], { emptySlots with legs := some "e" }⟩

theorem deleteItem_spec_witness :
    (("j" : String) ≠ "d" ∧ c7Sample.slots.get SlotId.legs ≠ some "d") ∧
    ((deleteItem "d" c7Sample).items.find? (fun it => it.id = "j") =
      c7Sample.items.find? (fun it => it.id = "j") ∧
    (deleteItem "d" c7Sample).slots.get SlotId.legs =
      c7Sample.slots.get SlotId.legs ∧
    "d" ∉ (deleteItem "d" c7Sample).storageOrder) :=
  ⟨⟨by decide, by decide⟩,
    (deleteItem_spec "d" c7Sample).2.2.2.1 "j" (by decide),
    (deleteItem_spec "d" c7Sample).2.2.2.2.1 SlotId.legs (by decide),
    (deleteItem_spec "d" c7Sample).2.1⟩

/-! ## C8: creation validates the name, then appends -/

/-- C8: `addItem` yields `none` (the aborted `ValidationError` path, on
which the source returns before allocating an id or touching any
state) exactly when the name is empty after trimming; on success the
new item's id is appended to both the catalog ids and the storage
tail, the slots are untouched, and the new item carries the trimmed
name. -/
theorem addItem_spec (name icon desc statsText freshId : String)
    (s : InvState) :
    (addItem name icon desc statsText freshId s = none ↔
      jsTrim name = "") ∧
    (∀ s2, addItem name icon desc statsText freshId s = some s2 →
      s2.storageOrder = s.storageOrder ++ [freshId] ∧
      s2.slots = s.slots ∧
      s2.items.map Item.id = s.items.map Item.id ++ [freshId] ∧
      s2.items.getLast?.map Item.name = some (jsTrim name)) := by
  unfold addItem
  split
  case isTrue h =>
    exact ⟨⟨fun _ => h, fun _ => rfl⟩, fun s2 hc => Option.noConfusion hc⟩
  case isFalse h =>
    refine ⟨⟨fun hc => Option.noConfusion hc, fun hh => absurd hh h⟩,
      fun s2 hs2 => ?_⟩
    have he : s2 = { s with
        items := s.items ++ [⟨freshId, jsTrim name,
          if icon = "" then none else some icon, desc,
          parseStats jsNumParses statsText⟩],
        storageOrder := s.storageOrder ++ [freshId] } :=
      (Option.some.inj hs2).symm
    subst he
    refine ⟨rfl, rfl, by simp, ?_⟩
    rw [List.getLast?_concat]
    rfl

def c8Result : InvState := ⟨[⟨"u1", "Axe", none, "", []⟩], ["u1"], emptySlots⟩

theorem addItem_spec_witness :
    (jsTrim "  " = "" ∧
      addItem "Axe " "" "" "" "u1" emptyState = some c8Result) ∧
    (addItem "  " "" "" "" "u1" emptyState = none ∧
      c8Result.storageOrder = emptyState.storageOrder ++ ["u1"] ∧
      c8Result.slots = emptyState.slots) :=
  ⟨⟨by decide, by decide⟩,
    (addItem_spec "  " "" "" "" "u1" emptyState).1.mpr (by decide),
    ((addItem_spec "Axe " "" "" "" "u1" emptyState).2 c8Result (by decide)).1,
    ((addItem_spec "Axe " "" "" "" "u1" emptyState).2 c8Result
      (by decide)).2.1⟩

/-! ## C9: the stats parser -/

theorem statSet_mem (stats : List (String × StatValue)) (k : String)
    (v : StatValue) : ∀ kv ∈ statSet stats k v, kv.1 = k ∨ kv ∈ stats := by
  intro kv hkv
  unfold statSet at hkv
  split at hkv
  · obtain ⟨kv2, hkv2, heq⟩ := List.mem_map.mp hkv
    by_cases hc : kv2.1 = k
    · left
      rw [← heq]
      simp [hc]
    · right
      rw [← heq]
      simp only [hc, if_false]
      exact hkv2
  · rcases List.mem_append.mp hkv with h | h
    · right; exact h
    · left
      rw [List.mem_singleton] at h
      rw [h]

theorem parse_fold_keys (isNum : String → Bool) :
    ∀ (l : List String) (init : List (String × StatValue)),
      ∀ kv ∈ l.foldl (parsePairInto isNum) init,
        (kv.1 ≠ "" ∧ kv.1 ∈ l.map keyOfPair) ∨ kv ∈ init := by
  intro l
  induction l with
  | nil => exact fun init kv h => Or.inr h
  | cons p l ih =>
    intro init kv h
    rw [List.foldl_cons] at h
    rcases ih (parsePairInto isNum init p) kv h with h1 | h2
    · left
      refine ⟨h1.1, ?_⟩
      rw [List.map_cons]
      exact List.mem_cons_of_mem _ h1.2
    · unfold parsePairInto at h2
      dsimp only at h2
      split at h2
      case isTrue => exact Or.inr h2
      case isFalse hk =>
        rcases statSet_mem _ _ _ kv h2 with h3 | h4
        · left
          constructor
          · rw [h3]; exact hk
          · rw [List.map_cons, h3]
            exact List.mem_cons_self _ _
        · exact Or.inr h4

/-- C9 counterexample: the claim says a pair with no `=` is silently
skipped and contributes no entry, so `"attack"` should parse to the
empty mapping; the code stores the JavaScript `undefined` under the
key instead (`v` is `undefined`, `isNaN(Number(undefined))` holds, and
`stats[k] = v` creates the entry). -/
theorem stats_pair_without_equals_counterexample :
    parseStats jsNumParses "attack" = [("attack", StatValue.undefVal)] ∧
    parseStats jsNumParses "attack" ≠ [] := by
  decide

/-- C9 (amended): the parser splits on commas; every entry of the
result has a nonempty key that is the trimmed key of some pair, and a
pair whose trimmed key is empty contributes nothing; per pair, an
empty trimmed key is skipped, and otherwise the stored value is the
undefined placeholder when the pair has no `=`, else the first value
segment as a number when it parses as one and as a string otherwise. -/
theorem parseStats_spec (isNum : String → Bool) :
    (∀ text : String, ∀ kv ∈ parseStats isNum text,
      kv.1 ≠ "" ∧ kv.1 ∈ (jsSplit ',' text).map keyOfPair) ∧
    (∀ stats pair, parsePairInto isNum stats pair =
      if keyOfPair pair = "" then stats
      else statSet stats (keyOfPair pair) (valOfPair isNum pair)) := by
  constructor
  · intro text kv h
    rcases parse_fold_keys isNum (jsSplit ',' text) [] kv h with h1 | h2
    · exact h1
    · exact absurd h2 (List.not_mem_nil kv)
  · intro stats pair
    rfl

theorem parseStats_spec_witness :
    (("atk", StatValue.num "5") ∈ parseStats jsNumParses "atk=5") ∧
    ("atk" ≠ "" ∧ "atk" ∈ (jsSplit ',' "atk=5").map keyOfPair) :=
  ⟨by decide,
    (parseStats_spec jsNumParses).1 "atk=5" ("atk", StatValue.num "5")
      (by decide)⟩

end RPGInventory
